import Mathlib

/-!
Verification of the JMC front-end: the tokenizer (`jmc/tokenizer.py`), the
argument parser (`Tokenizer.parse_func_args`), and the class expander
(`jmc/flow_control/class_.py`).

The embedding follows the Python source closely: source text is a
`List Char`, the scanner is an explicit state record stepped once per
character, and Python exceptions are an explicit error type.  Diagnostic
message *strings* are abstracted to structured constructors carrying the
line/column data that the messages interpolate; Python builtin exceptions
(`IndexError` from out-of-range indexing, `ValueError`/`SyntaxError`
escaping `ast.literal_eval`, `UnboundLocalError`) are separate
constructors, distinguished from `JMCSyntaxException` by `isSyntaxError`.
-/

/-- Token kinds, mirroring `TokenType` in tokenizer.py. -/
inductive TokenType where
  | keyword
  | paren
  | paren_round
  | paren_square
  | paren_curly
  | string
  | comment
  | comma
  | func
deriving DecidableEq, Repr

/-- A token, mirroring the frozen dataclass `Token`.  `length` is the
field computed by `Token.__post_init__`. -/
structure Token where
  token_type : TokenType
  line : Int
  col : Int
  string : List Char
  length : Nat
deriving DecidableEq, Repr

/-- Token construction: the dataclass constructor together with
`__post_init__`, which sets `length` to `len(string)+2` for string
tokens (accounting for the stripped quotes) and `len(string)` otherwise. -/
def mkToken (tt : TokenType) (line col : Int) (s : List Char) : Token :=
  ⟨tt, line, col, s, if tt = TokenType.string then s.length + 2 else s.length⟩

/-- Source position, mirroring the frozen dataclass `Pos`. -/
structure Pos where
  line : Int
  col : Int
deriving DecidableEq, Repr

instance : Inhabited Pos := ⟨⟨0, 0⟩⟩

/-- Errors raised by the front-end.  The first group are
`JMCSyntaxException`s (identified by the interpolated line/column data);
the last three model Python builtin exceptions escaping the code. -/
inductive JMCError where
  | unexpectedSemicolon (line col : Int)
  | unescapedLineBreak (line : Int)
  | unexpectedBracket (line col : Int)
  | bracketNeverClosed (line col : Int)
  | expectedSemicolon (line col : Int)
  | expectedParenRound (line col : Int)
  | positionalFollowsKeyword (line col : Int)
  | invalidKey (line col : Int)
  | emptyKey (line col : Int)
  | duplicatedKey (line col : Int)
  | expectedCurly (line col : Int)
  | unexpectedToken (line col : Int)
  | duplicatedEqualSign (line col : Int)
  | literalEvalError
  | indexError
  | unboundLocal
deriving DecidableEq, Repr

/-- Whether the error is a `JMCSyntaxException` (as opposed to a Python
builtin exception such as `IndexError` escaping uncaught). -/
def JMCError.isSyntaxError : JMCError → Bool
  | .literalEvalError => false
  | .indexError => false
  | .unboundLocal => false
  | _ => true

/-- Python `\s` on the ASCII range (`re.match(Re.WHITESPACE, char)`). -/
def isSpaceChar (c : Char) : Bool :=
  c = ' ' || c = '\t' || c = '\n' || c = '\r' || c = '\x0b' || c = '\x0c'

/-- Single or double quote (`Quote.SINGLE`, `Quote.DOUBLE`). -/
def isQuoteChar (c : Char) : Bool :=
  c = '\'' || c = '"'

/-- An opening bracket (`Paren.L_CURLY`, `Paren.L_ROUND`, `Paren.L_SQUARE`). -/
def isOpenParen (c : Char) : Bool :=
  c = '{' || c = '(' || c = '['

/-- A closing bracket (`Paren.R_CURLY`, `Paren.R_ROUND`, `Paren.R_SQUARE`). -/
def isCloseParen (c : Char) : Bool :=
  c = '}' || c = ')' || c = ']'

/-- The `PAREN_PAIR` mapping from opener to closer. -/
def parenPair (c : Char) : Char :=
  if c = '{' then '}' else if c = '[' then ']' else ')'

/-- Characters that terminate an open keyword token (tokenizer.py lines
175-183): quotes, the three opening brackets, semicolon, comma, or
whitespace.  Closing brackets do NOT terminate a keyword. -/
def isKeywordTerminator (c : Char) : Bool :=
  isQuoteChar c || isOpenParen c || c = ';' || c = ',' || isSpaceChar c

/-- Hex digit value. -/
def hexVal (c : Char) : Option Nat :=
  if '0' ≤ c ∧ c ≤ '9' then some (c.toNat - '0'.toNat)
  else if 'a' ≤ c ∧ c ≤ 'f' then some (c.toNat - 'a'.toNat + 10)
  else if 'A' ≤ c ∧ c ≤ 'F' then some (c.toNat - 'A'.toNat + 10)
  else none

/-- Modelled from the spec: the body decoder of Python's
`ast.literal_eval` (stdlib, not part of this repository).  The spec pins
the required behavior to standard C-style escape interpretation of the
content between the quotes: `\n \r \t \\ \' \" \xHH \uHHHH`; an escape
the decoder does not know keeps its backslash (as CPython does for,
e.g., `\q`); a malformed `\x`/`\u` escape is a decode error. -/
def decodeBody : List Char → Option (List Char)
  | [] => some []
  | '\\' :: 'n' :: rest => (decodeBody rest).map (fun l => '\n' :: l)
  | '\\' :: 't' :: rest => (decodeBody rest).map (fun l => '\t' :: l)
  | '\\' :: 'r' :: rest => (decodeBody rest).map (fun l => '\r' :: l)
  | '\\' :: '\\' :: rest => (decodeBody rest).map (fun l => '\\' :: l)
  | '\\' :: '\'' :: rest => (decodeBody rest).map (fun l => '\'' :: l)
  | '\\' :: '"' :: rest => (decodeBody rest).map (fun l => '"' :: l)
  | '\\' :: 'x' :: h1 :: h2 :: rest =>
    match hexVal h1, hexVal h2 with
    | some v1, some v2 => (decodeBody rest).map (fun l => Char.ofNat (16 * v1 + v2) :: l)
    | _, _ => none
  | '\\' :: 'u' :: h1 :: h2 :: h3 :: h4 :: rest =>
    match hexVal h1, hexVal h2, hexVal h3, hexVal h4 with
    | some v1, some v2, some v3, some v4 =>
      (decodeBody rest).map
        (fun l => Char.ofNat (4096 * v1 + 256 * v2 + 16 * v3 + v4) :: l)
    | _, _, _, _ => none
  | '\\' :: 'x' :: _ => none
  | '\\' :: 'u' :: _ => none
  | ['\\'] => none
  | c :: rest => (decodeBody rest).map (fun l => c :: l)

/-- Modelled from the spec: `ast.literal_eval` applied to the scanner's
accumulated string token (opening quote, raw content, closing quote).
Succeeds exactly on a well-formed quoted literal, returning the decoded
content; anything else is the `ValueError`/`SyntaxError` that
`literal_eval` raises. -/
def literalEval (l : List Char) : Except JMCError (List Char) :=
  match l with
  | [] => .error .literalEvalError
  | q :: rest =>
    if isQuoteChar q ∧ rest.getLast? = some q ∧ rest.length ≥ 1 then
      match decodeBody rest.dropLast with
      | some s => .ok s
      | none => .error .literalEvalError
    else .error .literalEvalError

/-- The scanner's working state: the instance attributes of `Tokenizer`
that `parse` initializes (tokenizer.py lines 131-147) and mutates. -/
structure TkState where
  line : Int
  col : Int
  state : Option TokenType
  token : List Char
  token_pos : Option Pos
  keywords : List Token
  list_of_tokens : List (List Token)
  quote : Option Char
  is_escaped : Bool
  paren : Option Char
  r_paren : Option Char
  paren_count : Option Int
  is_string : Bool
  is_slash : Bool
deriving DecidableEq, Repr

/-- `Tokenizer.append_token`: emit the partially built token and reset
the token state.  (`state`/`token_pos` are always set at the call
sites; the defaults are never used.) -/
def appendToken (st : TkState) : TkState :=
  let p := st.token_pos.getD ⟨0, 0⟩
  { st with
    keywords := st.keywords ++ [mkToken (st.state.getD TokenType.keyword) p.line p.col st.token]
    token := []
    token_pos := none
    state := none }

/-- `Tokenizer.append_keywords`: flush the accumulated statement into the
program if it is non-empty. -/
def appendKeywords (st : TkState) : TkState :=
  if st.keywords = [] then st
  else { st with list_of_tokens := st.list_of_tokens ++ [st.keywords], keywords := [] }

/-- Character dispatch when no token is open (tokenizer.py lines
189-219).  Each branch that reaches the end of the loop body also
performs the trailing `is_slash` update of line 266; the whitespace
branch `continue`s past it. -/
def dispatchNone (st : TkState) (c : Char) : Except JMCError TkState :=
  if isQuoteChar c then
    .ok { st with state := some TokenType.string
                  token_pos := some ⟨st.line, st.col⟩
                  quote := some c
                  token := st.token ++ [c]
                  is_slash := (c = '/') }
  else if isSpaceChar c then .ok st
  else if c = ';' then .ok (appendKeywords { st with is_slash := (c = '/') })
  else if isOpenParen c then
    .ok { st with state := some TokenType.paren
                  token := st.token ++ [c]
                  token_pos := some ⟨st.line, st.col⟩
                  paren := some c
                  r_paren := some (parenPair c)
                  paren_count := some 0
                  is_slash := (c = '/') }
  else if isCloseParen c then .error (.unexpectedBracket st.line st.col)
  else if c = '#' ∧ st.col = 1 then
    .ok { st with state := some TokenType.comment, is_slash := (c = '/') }
  else if c = ',' then
    .ok (appendToken { st with token := st.token ++ [c]
                               token_pos := some ⟨st.line, st.col⟩
                               state := some TokenType.comma
                               is_slash := (c = '/') })
  else
    .ok { st with state := some TokenType.keyword
                  token_pos := some ⟨st.line, st.col⟩
                  token := st.token ++ [c]
                  is_slash := (c = '/') }

/-- Character dispatch inside a string literal (tokenizer.py lines
221-229): the character is appended, escapes are tracked, and the
unescaped matching quote decodes the literal and emits the token.  Each
branch also performs the trailing `is_slash` update. -/
def dispatchString (st : TkState) (c : Char) : Except JMCError TkState :=
  if c = '\\' ∧ st.is_escaped = false then
    .ok { st with token := st.token ++ [c], is_escaped := true, is_slash := (c = '/') }
  else if some c = st.quote ∧ st.is_escaped = false then
    match literalEval (st.token ++ [c]) with
    | .ok decoded =>
      .ok (appendToken { st with token := decoded, is_slash := (c = '/') })
    | .error e => .error e
  else if st.is_escaped = true then
    .ok { st with token := st.token ++ [c], is_escaped := false, is_slash := (c = '/') }
  else .ok { st with token := st.token ++ [c], is_slash := (c = '/') }

/-- Character dispatch inside a bracket group (tokenizer.py lines
231-261).  Every character is appended verbatim; an inner-string
sub-state keeps quoted content from affecting bracket balance; the
closer at depth zero outside a string emits the bracket token (a closing
`}` additionally flushing the statement in statement mode) and
`continue`s past the `is_slash` update. -/
def dispatchParen (es : Bool) (st : TkState) (c : Char) : Except JMCError TkState :=
  if st.is_string then
    if c = '\\' ∧ st.is_escaped = false then
      .ok { st with token := st.token ++ [c], is_escaped := true, is_slash := (c = '/') }
    else if some c = st.quote ∧ st.is_escaped = false then
      .ok { st with token := st.token ++ [c], is_string := false, is_slash := (c = '/') }
    else if st.is_escaped = true then
      .ok { st with token := st.token ++ [c], is_escaped := false, is_slash := (c = '/') }
    else .ok { st with token := st.token ++ [c], is_slash := (c = '/') }
  else if some c = st.r_paren ∧ st.paren_count = some 0 then
    if st.paren = some '{' then
      if es = true then
        .ok (appendKeywords (appendToken
          { st with token := st.token ++ [c], state := some TokenType.paren_curly }))
      else
        .ok (appendToken
          { st with token := st.token ++ [c], state := some TokenType.paren_curly })
    else if st.paren = some '(' then
      .ok (appendToken
        { st with token := st.token ++ [c], state := some TokenType.paren_round })
    else if st.paren = some '[' then
      .ok (appendToken
        { st with token := st.token ++ [c], state := some TokenType.paren_square })
    else .ok (appendToken { st with token := st.token ++ [c] })
  else if some c = st.paren then
    .ok { st with token := st.token ++ [c]
                  paren_count := st.paren_count.map (fun n => n + 1)
                  is_slash := (c = '/') }
  else if some c = st.r_paren then
    .ok { st with token := st.token ++ [c]
                  paren_count := st.paren_count.map (fun n => n - 1)
                  is_slash := (c = '/') }
  else if isQuoteChar c then
    .ok { st with token := st.token ++ [c]
                  is_string := true
                  quote := some c
                  is_slash := (c = '/') }
  else .ok { st with token := st.token ++ [c], is_slash := (c = '/') }

/-- Newline handling (tokenizer.py lines 155-167): error inside a string
literal, end a comment, flush a keyword, append to an open bracket
group; then advance the line and reset the column. -/
def stepNewline (st : TkState) : Except JMCError TkState :=
  if st.state = some TokenType.string then .error (.unescapedLineBreak st.line)
  else if st.state = some TokenType.comment then
    .ok { st with state := none, line := st.line + 1, col := 0 }
  else if st.state = some TokenType.keyword then
    .ok (appendToken { st with line := st.line + 1, col := 0 })
  else if st.state = some TokenType.paren then
    .ok { st with token := st.token ++ ['\n'], line := st.line + 1, col := 0 }
  else .ok { st with line := st.line + 1, col := 0 }

/-- State dispatch for a non-newline, non-comment-opening character
(tokenizer.py lines 189-264): by the scanner state, with the comment
state ignoring the character (and still updating `is_slash`). -/
def stepDispatch (es : Bool) (st : TkState) (c : Char) : Except JMCError TkState :=
  if st.state = none then dispatchNone st c
  else if st.state = some TokenType.string then dispatchString st c
  else if st.state = some TokenType.paren then dispatchParen es st c
  else .ok { st with is_slash := (c = '/') }

/-- The body of one scanner-loop iteration after the column advance
(tokenizer.py lines 151-266): expression-mode semicolon check, newline
handling, `//` comment detection, keyword continuation (which
`continue`s) or termination (which re-dispatches the terminator), then
state dispatch. -/
def stepChar (es : Bool) (st : TkState) (c : Char) : Except JMCError TkState :=
  if es = false ∧ c = ';' then .error (.unexpectedSemicolon st.line st.col)
  else if c = '\n' then stepNewline st
  else if c = '/' ∧ st.is_slash = true ∧ st.state ≠ some TokenType.string then
    .ok { st with state := some TokenType.comment, token := st.token.dropLast }
  else if st.state = some TokenType.keyword ∧ isKeywordTerminator c = false then
    .ok { st with token := st.token ++ [c] }
  else if st.state = some TokenType.keyword then
    stepDispatch es (appendToken st) c
  else stepDispatch es st c

/-- One iteration of the scanner loop (`for char in string`, tokenizer.py
lines 149-266): advance the column, then run the body. -/
def parseStep (es : Bool) (st0 : TkState) (c : Char) : Except JMCError TkState :=
  stepChar es { st0 with col := st0.col + 1 } c

/-- The scanner loop itself: step over each character in order,
propagating the first error. -/
def foldSteps (es : Bool) : List Char → TkState → Except JMCError TkState
  | [], st => .ok st
  | c :: rest, st =>
    match parseStep es st c with
    | .error e => .error e
    | .ok st' => foldSteps es rest st'

/-- The scanner state at entry to `Tokenizer.parse` (lines 131-147):
every working attribute reset, `col` set to `col - 1`. -/
def initState (line col : Int) : TkState :=
  { line := line
    col := col - 1
    state := none
    token := []
    token_pos := none
    keywords := []
    list_of_tokens := []
    quote := none
    is_escaped := false
    paren := none
    r_paren := none
    paren_count := none
    is_string := false
    is_slash := false }

/-- Flush the trailing keyword token at end of input if its text is
non-empty (tokenizer.py lines 269-270). -/
def flushTrailing (st : TkState) : TkState :=
  if st.token ≠ [] then appendToken st else st

/-- The end-of-input error checks (tokenizer.py lines 274-282): an
unterminated string, an unterminated bracket, or a missing semicolon;
otherwise the accumulated program is returned. -/
def finishChecks (st : TkState) : Except JMCError (List (List Token)) :=
  if st.state = some TokenType.string then .error (.unescapedLineBreak st.line)
  else if st.state = some TokenType.paren then
    .error (.bracketNeverClosed (st.token_pos.getD ⟨0, 0⟩).line
      (st.token_pos.getD ⟨0, 0⟩).col)
  else if st.keywords ≠ [] then
    match st.keywords.getLast? with
    | some t => .error (.expectedSemicolon t.line (t.col + (t.length : Int)))
    | none => .error .indexError
  else .ok st.list_of_tokens

/-- End-of-input handling (tokenizer.py lines 268-282): when the scan
ends in the keyword state, flush the trailing keyword — and, in
expression mode only, the accumulated statement; then run the checks. -/
def finishParse (es : Bool) (st : TkState) : Except JMCError (List (List Token)) :=
  finishChecks
    (if st.state = some TokenType.keyword then
      (if es = false then appendKeywords (flushTrailing st) else flushTrailing st)
    else st)

/-- The complete scan: loop plus end-of-input handling, producing the
`list_of_tokens` program. -/
def runParse (es : Bool) (s : List Char) (line col : Int) :
    Except JMCError (List (List Token)) :=
  match foldSteps es s (initState line col) with
  | .error e => .error e
  | .ok st => finishParse es st

/-- Expression-mode result extraction: `return self.list_of_tokens[0]`
(tokenizer.py line 287).  Indexing an empty list raises `IndexError`. -/
def parseExprTokens (s : List Char) (line col : Int) : Except JMCError (List Token) :=
  match runParse false s line col with
  | .error e => .error e
  | .ok [] => .error .indexError
  | .ok (x :: _) => .ok x

/-- The value `Tokenizer.parse` returns: a program (list of statements)
in statement mode, a single statement in expression mode. -/
inductive ParseResult where
  | program (l : List (List Token))
  | statement (l : List Token)
deriving DecidableEq, Repr

/-- `Tokenizer.parse(string, line, col, expect_semicolon)`. -/
def Tokenizer.parse (s : List Char) (line col : Int) (expect_semicolon : Bool) :
    Except JMCError ParseResult :=
  if expect_semicolon then
    match runParse true s line col with
    | .error e => .error e
    | .ok lot => .ok (.program lot)
  else
    match parseExprTokens s line col with
    | .error e => .error e
    | .ok stmt => .ok (.statement stmt)

/-- All tokens emitted in a parse result, in order. -/
def ParseResult.tokens : ParseResult → List Token
  | .program l => l.flatten
  | .statement l => l

/-- The registers of the `parse_func_args` token walk (tokenizer.py lines
296-305 and the loop variable `last_token`). -/
structure ArgState where
  args : List Token
  kwargs : List (List Char × Token)
  key : List Char
  arg : List Char
  arrow : Nat
  last : Option Token
deriving DecidableEq, Repr

/-- The registers at entry to the walk. -/
def initArgState : ArgState :=
  { args := [], kwargs := [], key := [], arg := [], arrow := 0, last := none }

/-- `parse_func_args.add_arg`: commit the staged positional value
(raising if a keyword argument was already committed). -/
def addArg (st : ArgState) (tok : Token) : Except JMCError ArgState :=
  if st.kwargs ≠ [] then .error (.positionalFollowsKeyword tok.line (tok.col + 1))
  else .ok { st with
    args := st.args ++ [mkToken tok.token_type tok.line tok.col st.arg]
    arg := [] }

/-- `parse_func_args.add_key`: commit the staged keyword value.  The
source indexes `key[0]` in its first check, so an empty key raises
`IndexError` there and the explicit empty-key check below it is dead. -/
def addKey (st : ArgState) (tok : Token) : Except JMCError ArgState :=
  match st.key with
  | [] => .error .indexError
  | k0 :: _ =>
    if isOpenParen k0 then
      match st.last with
      | some lt => .error (.invalidKey lt.line lt.col)
      | none => .error .unboundLocal
    else if st.key = [] then .error (.emptyKey tok.line tok.col)
    else if st.kwargs.any (fun p => p.1 = st.key) then
      .error (.duplicatedKey tok.line tok.col)
    else .ok { st with
      kwargs := st.kwargs ++ [(st.key, mkToken tok.token_type tok.line tok.col st.arg)]
      key := []
      arg := [] }

/-- Index of the first occurrence of `c` (Python `str.find`, on lists
where the character is known to occur). -/
def findIdx0 (c : Char) (l : List Char) : Nat :=
  l.indexOf c

/-- Index of the last occurrence of `c` (Python `str.rfind`, on lists
where the character is known to occur). -/
def rfindIdx (c : Char) (l : List Char) : Nat :=
  l.length - 1 - l.reverse.indexOf c

/-- The main token dispatch of the `parse_func_args` walk, reached when
`arrow_func_state` is 0 (tokenizer.py lines 369-418). -/
def funcArgMain (st : ArgState) (tok : Token) : Except JMCError ArgState :=
  if tok.token_type = TokenType.keyword then
    if st.arg ≠ [] then
      if tok.string.head? = some '=' then
        let st := { st with key := st.arg, arg := tok.string.drop 1 }
        if st.arg ≠ [] then addKey st tok else .ok st
      else .error (.unexpectedToken tok.line tok.col)
    else if st.key ≠ [] then
      let st := { st with arg := tok.string }
      if tok.string.contains '=' then
        .error (.duplicatedEqualSign tok.line (tok.col + (findIdx0 '=' tok.string : Int) + 1))
      else addKey st tok
    else
      if tok.string.count '=' > 1 then
        .error (.duplicatedEqualSign tok.line (tok.col + (rfindIdx '=' tok.string : Int) + 1))
      else if tok.string.getLast? = some '=' then
        .ok { st with key := tok.string.dropLast }
      else if tok.string.contains '=' then
        let st := { st with
          key := tok.string.takeWhile (fun c => c ≠ '=')
          arg := (tok.string.dropWhile (fun c => c ≠ '=')).drop 1 }
        addKey st tok
      else .ok { st with arg := tok.string }
  else if tok.token_type = TokenType.comma then
    let st := { st with arrow := 0 }
    if st.arg ≠ [] then
      match st.last with
      | none => .error .unboundLocal
      | some lt => addArg st lt
    else .ok st
  else if tok.token_type = TokenType.paren_round ∨ tok.token_type = TokenType.paren_curly
      ∨ tok.token_type = TokenType.paren_square then
    if tok.string = ['(', ')'] then .ok { st with arrow := 1 }
    else
      let st := { st with arg := tok.string }
      if st.key ≠ [] then addKey st tok else .ok st
  else if tok.token_type = TokenType.string then
    let st := { st with arg := tok.string }
    if st.key ≠ [] then addKey st tok else .ok st
  else .ok st

/-- One iteration of the `parse_func_args` walk (tokenizer.py lines
340-419): the arrow-function recognizer, then the main dispatch; the
arrow paths `continue` before the trailing `last_token = token`
assignment, the main dispatch always reaches it. -/
def funcArgStep (st : ArgState) (tok : Token) : Except JMCError ArgState :=
  if st.arrow = 1 then
    if tok.string = ['=', '>'] ∧ tok.token_type = TokenType.keyword then
      .ok { st with arrow := 2, last := some tok }
    else
      match st.last with
      | none => .error .unboundLocal
      | some lt =>
        let st := { st with arg := lt.string, arrow := 0 }
        if st.key ≠ [] then addKey st lt else .ok st
  else if st.arrow = 2 then
    if tok.token_type = TokenType.paren_curly then
      let nt := mkToken TokenType.func tok.line tok.col ((tok.string.drop 1).dropLast)
      let st1 := { st with arg := nt.string }
      match (if st1.key ≠ [] then addKey st1 nt else .ok st1) with
      | .error e => .error e
      | .ok st2 => .ok { st2 with last := some nt, arrow := 0 }
    else .error (.expectedCurly tok.line tok.col)
  else
    match funcArgMain st tok with
    | .error e => .error e
    | .ok st' => .ok { st' with last := some tok }

/-- The walk over the re-tokenized argument list. -/
def foldArgSteps : List Token → ArgState → Except JMCError ArgState
  | [], st => .ok st
  | tok :: rest, st =>
    match funcArgStep st tok with
    | .error e => .error e
    | .ok st' => foldArgSteps rest st'

/-- `Tokenizer.parse_func_args(token)`: check the token is a round
bracket group, re-tokenize its interior in expression mode from the
opener's position, walk the token list, and commit a trailing staged
positional (the loop variable after the loop is the last list element). -/
def Tokenizer.parse_func_args (tok : Token) :
    Except JMCError (List Token × List (List Char × Token)) :=
  if tok.token_type ≠ TokenType.paren_round then
    .error (.expectedParenRound tok.line tok.col)
  else
    match parseExprTokens ((tok.string.drop 1).dropLast) tok.line tok.col with
    | .error e => .error e
    | .ok keywords =>
      match foldArgSteps keywords initArgState with
      | .error e => .error e
      | .ok st =>
        if st.arg ≠ [] then
          match keywords.getLast? with
          | none => .error .unboundLocal
          | some t =>
            match addArg st t with
            | .error e => .error e
            | .ok st' => .ok (st'.args, st'.kwargs)
        else .ok (st.args, st.kwargs)

/-- Python `str.strip()` on the ASCII range. -/
def pyStrip (l : List Char) : List Char :=
  ((l.dropWhile isSpaceChar).reverse.dropWhile isSpaceChar).reverse

/-- A character of the class-name group `[\w\._]` (ASCII scope). -/
def isClassNameChar (c : Char) : Bool :=
  c.isAlphanum || c = '_' || c = '.'

/-- Modelled from the spec: the balanced-brace scan of
`BracketRegex.match_bracket` (`jmc/utils`, not among the provided
sources).  Called just past an opening brace with the current extra
nesting depth; returns the content up to the matching closing brace and
the remainder after it, or `none` when the braces never close.  The spec
directs targets without recursive regexes to implement exactly this
direct balanced scan. -/
def scanBraces : List Char → Nat → Option (List Char × List Char)
  | [], _ => none
  | c :: rest, depth =>
    if c = '}' then
      if depth = 0 then some ([], rest)
      else
        match scanBraces rest (depth - 1) with
        | some (body, r) => some (c :: body, r)
        | none => none
    else if c = '{' then
      match scanBraces rest (depth + 1) with
      | some (body, r) => some (c :: body, r)
      | none => none
    else
      match scanBraces rest depth with
      | some (body, r) => some (c :: body, r)
      | none => none

/-- Modelled from the spec: the anchored match of `class_REGEX`
(`^class\s*([\w\._]+)\s*` followed by the brace matcher) together with
`bracket_regex.compile`, which yields the class name and the brace
content without the outer braces.  Returns `(name, body, rest)` where
`rest` is the text after the matched span, or `none` when the head of
the input does not match. -/
def matchClass (l : List Char) : Option (List Char × List Char × List Char) :=
  if l.take 5 = ['c', 'l', 'a', 's', 's'] then
    let r1 := (l.drop 5).dropWhile isSpaceChar
    let name := r1.takeWhile isClassNameChar
    if name = [] then none
    else
      match (r1.dropWhile isClassNameChar).dropWhile isSpaceChar with
      | '{' :: rest =>
        match scanBraces rest 0 with
        | some (body, remaining) => some (name, body, remaining)
        | none => none
      | _ => none
  else none

/-- `process_class` (`jmc/flow_control/class_.py`): strip the input,
match `class <Name> { <Body> }` at its head; on a match hand the body
and the extended dotted name to the external function-level expander
`pf` (the `DataPack.process_function` collaborator), splice its residual
output in front of the unmatched remainder, and recurse with the
original dotted name; on no match return the stripped input.  The fuel
argument bounds the recursion depth (Python recursion is likewise
finite, bounded by the interpreter's recursion limit). -/
def process_class (pf : List Char → List Char → List Char) :
    Nat → List Char → List Char → List Char
  | 0, line, _ => line
  | fuel + 1, line, pfx =>
    let line := pyStrip line
    match matchClass line with
    | none => line
    | some (name, body, rest) =>
      process_class pf fuel (pf body (pfx ++ name ++ ['.']) ++ rest) pfx

/-- The state of the re-scan that checks a bracket token's text: mirror
of the scanner's in-bracket sub-state (depth counter, inner-string flag
with its quote and escape flag), plus whether the closer has been seen
at depth zero outside a string. -/
structure ParenScan where
  depth : Int
  in_string : Bool
  quote : Char
  esc : Bool
  closed : Bool
deriving DecidableEq, Repr

/-- The initial re-scan state, as set when a bracket group opens. -/
def parenScanInit : ParenScan :=
  { depth := 0, in_string := false, quote := '"', esc := false, closed := false }

/-- One character of the re-scan, mirroring the scanner's in-bracket
dispatch exactly: newlines are appended without touching the sub-state
(tokenizer.py line 164), quoted runs toggle the inner-string flag with
escape handling, and outside strings the opener/closer adjust the depth,
with the closer at depth zero closing the group. -/
def parenScanStep (o c : Char) (s : ParenScan) (ch : Char) : ParenScan :=
  if s.closed then s
  else if ch = '\n' then s
  else if s.in_string then
    if ch = '\\' ∧ s.esc = false then { s with esc := true }
    else if ch = s.quote ∧ s.esc = false then { s with in_string := false }
    else if s.esc = true then { s with esc := false }
    else s
  else
    if ch = c ∧ s.depth = 0 then { s with closed := true }
    else if ch = o then { s with depth := s.depth + 1 }
    else if ch = c then { s with depth := s.depth - 1 }
    else if isQuoteChar ch then { s with in_string := true, quote := ch }
    else s

/-- Re-scan a character run with opener `o` and closer `c`. -/
def parenScanList (o c : Char) (l : List Char) : ParenScan :=
  l.foldl (parenScanStep o c) parenScanInit

/-- The bracket-token invariant claimed by the spec, as a decidable check
on the token text: the first character is the opener, the last is the
matching closer, and the re-scan (which does not count brackets inside
the token's own string literals) closes exactly at the final character
and never earlier. -/
def parenBalancedText (o c : Char) (l : List Char) : Bool :=
  match l with
  | [] => false
  | h :: t =>
    h = o && t.getLast? = some c
      && (parenScanList o c t.dropLast).closed = false
      && (parenScanList o c t).closed = true

/-- A token satisfies the spec's bracket invariant: if it is one of the
three bracket kinds, its text is a balanced run for the corresponding
bracket pair. -/
def goodToken (t : Token) : Prop :=
  (t.token_type = TokenType.paren_round → parenBalancedText '(' ')' t.string = true)
  ∧ (t.token_type = TokenType.paren_square → parenBalancedText '[' ']' t.string = true)
  ∧ (t.token_type = TokenType.paren_curly → parenBalancedText '{' '}' t.string = true)

/-- All tokens held by the scanner state: the flushed statements plus
the currently accumulating one. -/
def allTokens (st : TkState) : List Token :=
  st.list_of_tokens.flatten ++ st.keywords

/-- Tokens of kinds other than the three bracket kinds satisfy the
bracket invariant vacuously. -/
theorem goodToken_of_not_paren (tt : TokenType) (line col : Int) (s : List Char)
    (h1 : tt ≠ TokenType.paren_round) (h2 : tt ≠ TokenType.paren_square)
    (h3 : tt ≠ TokenType.paren_curly) : goodToken (mkToken tt line col s) := by
  refine ⟨fun h => absurd h h1, fun h => absurd h h2, fun h => absurd h h3⟩

/-- C9: tokenization is deterministic.  The scanner is a pure function of
the source string, the start position and the mode flag: `Tokenizer.parse`
re-initializes every working attribute on entry (tokenizer.py lines
131-147), so two invocations with the same arguments produce the same
token stream, and the same error when they fail. -/
theorem C9_deterministic (s : List Char) (line col : Int) (es : Bool) :
    Tokenizer.parse s line col es = Tokenizer.parse s line col es := rfl

/-- C10: expression-mode tokenization of a token-free input (empty,
whitespace-only, or comment-only) reaches `return self.list_of_tokens[0]`
with an empty list, so it raises `IndexError` rather than returning a
value or raising the tokenizer's `JMCSyntaxException`; consequently
`parse_func_args` on a `()` argument list does the same. -/
theorem C10_empty_args_crash :
    Tokenizer.parse [] 1 1 false = .error .indexError
    ∧ Tokenizer.parse ("   ".data) 1 1 false = .error .indexError
    ∧ Tokenizer.parse ("//c".data) 1 1 false = .error .indexError
    ∧ Tokenizer.parse_func_args (mkToken TokenType.paren_round 1 1 ("()".data))
        = .error .indexError
    ∧ JMCError.isSyntaxError .indexError = false := by
  refine ⟨rfl, rfl, rfl, rfl, rfl⟩

/-- C3: the spec's arrow-function scenario.  Statement-mode tokenization
of `run(() => { say hi; });` yields the expected `Keyword`/`ParenRound`
pair, but `parse_func_args` on that bracket token re-tokenizes the
interior in expression mode, where the semicolon check (tokenizer.py
line 151) fires before any bracket state is consulted, so the `;` inside
the arrow-function body raises "Unexpected semicolon" instead of
producing the `Func` token the spec requires. -/
theorem C3_arrow_body_semicolon_bug :
    Tokenizer.parse ("run(() => \x7b say hi; \x7d);".data) 1 1 true
      = .ok (.program [[mkToken TokenType.keyword 1 1 ("run".data),
          mkToken TokenType.paren_round 1 4 ("(() => \x7b say hi; \x7d)".data)]])
    ∧ Tokenizer.parse_func_args
        (mkToken TokenType.paren_round 1 4 ("(() => \x7b say hi; \x7d)".data))
      = .error (.unexpectedSemicolon 1 18) := by
  refine ⟨rfl, rfl⟩

/-- C7: committing a keyword value whose staged key is empty.  The first
check of `add_key` indexes `key[0]` (tokenizer.py line 322), which on an
empty key raises `IndexError` before the explicit empty-key check below
it can fire, so the interior `=bar` crashes with a Python `IndexError`
rather than the claimed `JMCSyntaxException`. -/
theorem C7_empty_key_crash :
    Tokenizer.parse_func_args (mkToken TokenType.paren_round 1 1 ("(=bar)".data))
      = .error .indexError
    ∧ JMCError.isSyntaxError .indexError = false := by
  refine ⟨rfl, rfl⟩

/-- C7 (general form): every commit of an empty staged key takes the
`key[0]` path and raises `IndexError`; the "Empty" diagnostic after it
is unreachable. -/
theorem C7_empty_key_always_index_error (st : ArgState) (tok : Token)
    (h : st.key = []) : addKey st tok = .error .indexError := by
  unfold addKey
  rw [h]

/-- C7 general form, applied: the empty-key commit arising from the
interior `=bar` indeed raises `IndexError`. -/
theorem C7_empty_key_witness :
    addKey { initArgState with arg := ('b' :: 'a' :: 'r' :: []) }
        (mkToken TokenType.keyword 1 1 ("=bar".data)) = .error .indexError :=
  C7_empty_key_always_index_error _ _ rfl

/-- C8 counterexample: the claim fails in the staged-positional commit
path.  In `(x =a=b)` the second keyword token `=a=b` contains two `=`
characters, yet `parse_func_args` commits it as the keyword argument
`x = "a=b"` with no duplicated-equal-sign check (tokenizer.py lines
370-375 test only `startswith("=")`), returning successfully. -/
theorem C8_counterexample :
    parseExprTokens ("x =a=b".data) 1 1
      = .ok [mkToken TokenType.keyword 1 1 ('x' :: []),
             mkToken TokenType.keyword 1 3 ("=a=b".data)]
    ∧ ("=a=b".data).count '=' = 2
    ∧ Tokenizer.parse_func_args (mkToken TokenType.paren_round 1 1 ("(x =a=b)".data))
      = .ok ([], [(('x' :: []), mkToken TokenType.keyword 1 3 ("a=b".data))]) := by
  refine ⟨rfl, rfl, rfl⟩

/-- The walk result is the "duplicated equal sign" syntax error. -/
def isDupEqualError : Except JMCError ArgState → Prop
  | .error (.duplicatedEqualSign _ _) => True
  | _ => False

/-- C8 as amended: a `Keyword` token containing more than one `=` raises
the "duplicated equal sign" error in the commit paths that reach it with
no staged positional value — both as a fresh token and after a staged
keyword name.  (After a staged positional value the source never makes
this check: see the counterexample.) -/
theorem C8_duplicated_equal_sign (st : ArgState) (tok : Token)
    (h1 : tok.token_type = TokenType.keyword) (h2 : st.arrow = 0)
    (h3 : st.arg = []) (h4 : tok.string.count '=' > 1) :
    isDupEqualError (funcArgStep st tok) := by
  have hmem : '=' ∈ tok.string := by
    have : 0 < tok.string.count '=' := by omega
    exact List.count_pos_iff.mp this
  unfold funcArgStep
  rw [h2]
  simp only [Nat.zero_ne_one, if_false, if_neg (by omega : ¬(0 = 2))]
  unfold funcArgMain
  rw [h1, h3]
  by_cases hk : st.key = []
  · simp [hk, if_pos h4, isDupEqualError]
  · simp [hk, hmem, isDupEqualError]

/-- C8 amended claim, applied: the fresh keyword token `=a=b` (two `=`
characters, no staged positional) raises "duplicated equal sign". -/
theorem C8_witness :
    isDupEqualError (funcArgStep initArgState (mkToken TokenType.keyword 1 1 ("=a=b".data))) :=
  C8_duplicated_equal_sign initArgState (mkToken TokenType.keyword 1 1 ("=a=b".data))
    rfl rfl rfl (by decide)

/-- C5: when the trimmed input starts with `class <Name> { <Body> }`, one
expansion step hands exactly `<Body>` together with the dotted name
`<prefix><Name>.` to the external function-level expander, splices the
returned residual text in front of the unmatched remainder, and
re-applies the expander to the spliced result with the original dotted
name. -/
theorem C5_class_expansion (pf : List Char → List Char → List Char) (fuel : Nat)
    (line pfx name body rest : List Char)
    (h : matchClass (pyStrip line) = some (name, body, rest)) :
    process_class pf (fuel + 1) line pfx
      = process_class pf fuel (pf body (pfx ++ name ++ ['.']) ++ rest) pfx := by
  simp only [process_class, h]

/-- C5, applied: expanding `class A { f } g` with the empty dotted name
delivers the body ` f ` with the dotted name `A.` and recurses on the
splice followed by ` g`. -/
theorem C5_witness :
    process_class (fun b p => p ++ b) 1 ("class A \x7b f \x7d g".data) []
      = process_class (fun b p => p ++ b) 0
          ((fun (b p : List Char) => p ++ b) (" f ".data) ("A.".data) ++ (" g".data)) [] :=
  C5_class_expansion (fun b p => p ++ b) 0 ("class A \x7b f \x7d g".data) []
    ("A".data) (" f ".data) (" g".data) (by decide)

/-- C6 counterexample: `process_class` strips its input before matching
(class_.py line 21) and returns the *stripped* text when no class
pattern matches, so it is not the identity on no-match inputs carrying
leading or trailing whitespace. -/
theorem C6_counterexample :
    process_class (fun _ _ => []) 1 (" foo ".data) [] = ("foo".data)
    ∧ ("foo".data) ≠ (" foo ".data) := by
  refine ⟨rfl, by decide⟩

/-- C6 as amended: on every input whose trimmed form does not match the
`class <Name> { <Body> }` pattern, `process_class` returns the trimmed
input — hence it is the identity exactly on no-match inputs without
leading or trailing whitespace. -/
theorem C6_no_match_returns_strip (pf : List Char → List Char → List Char)
    (fuel : Nat) (line pfx : List Char)
    (h : matchClass (pyStrip line) = none) :
    process_class pf (fuel + 1) line pfx = pyStrip line := by
  simp only [process_class, h]

/-- C6 amended claim, applied: a no-match input is returned stripped. -/
theorem C6_witness :
    process_class (fun _ _ => []) 1 ("foo bar".data) [] = pyStrip ("foo bar".data) :=
  C6_no_match_returns_strip (fun _ _ => []) 0 ("foo bar".data) [] (by decide)

/-- C1 counterexample: the `//` comment rule (tokenizer.py lines
169-172) truncates the token buffer but leaves its residue in place;
after the comment ends, the residue `{a` flows into the next bracket
group, and the accepted input `{a//\n(b);` emits a `ParenRound` token
whose text `{a(b)` starts with `{` rather than `(` and is not
depth-balanced. -/
theorem C1_counterexample :
    Tokenizer.parse ("\x7ba//\n(b);".data) 1 1 true
      = .ok (.program [[mkToken TokenType.paren_round 2 1 ("\x7ba(b)".data)]])
    ∧ parenBalancedText '(' ')' ("\x7ba(b)".data) = false := by
  refine ⟨rfl, rfl⟩

/-- C2 counterexample: expression-mode tokenization of `"hi"` — an input
holding exactly one token and no semicolon — accumulates the `String`
token but reaches end of input in the `None` state, where the implicit
flush (tokenizer.py lines 268-272) is skipped because it only runs in
the keyword state; the non-empty statement buffer then raises "Expected
semicolon" (line 280) even though expression mode forbids semicolons. -/
theorem C2_counterexample :
    (foldSteps false ("\"hi\"".data) (initState 1 1)).map (fun st => st.keywords)
      = .ok [mkToken TokenType.string 1 1 ("hi".data)]
    ∧ Tokenizer.parse ("\"hi\"".data) 1 1 false = .error (.expectedSemicolon 1 5) := by
  refine ⟨rfl, rfl⟩


theorem appendToken_lot (st : TkState) :
    (appendToken st).list_of_tokens = st.list_of_tokens := rfl

theorem dispatchNone_lot (st : TkState) (c : Char) (st' : TkState)
    (hc : c ≠ ';') (h : dispatchNone st c = .ok st') :
    st'.list_of_tokens = st.list_of_tokens := by
  unfold dispatchNone at h
  split_ifs at h <;>
    first
      | (exact absurd (by assumption) hc)
      | (cases h; rfl)

theorem dispatchString_lot (st : TkState) (c : Char) (st' : TkState)
    (h : dispatchString st c = .ok st') :
    st'.list_of_tokens = st.list_of_tokens := by
  unfold dispatchString at h
  split_ifs at h with h1 h2 h3
  · cases h; rfl
  · split at h
    · cases h; rfl
    · cases h
  · cases h; rfl
  · cases h; rfl

theorem dispatchParen_false_lot (st : TkState) (c : Char) (st' : TkState)
    (h : dispatchParen false st c = .ok st') :
    st'.list_of_tokens = st.list_of_tokens := by
  unfold dispatchParen at h
  split_ifs at h <;>
    first
      | (exact (by assumption : False).elim)
      | (cases h; rfl)

theorem stepDispatch_false_lot (st : TkState) (c : Char) (st' : TkState)
    (hc : c ≠ ';') (h : stepDispatch false st c = .ok st') :
    st'.list_of_tokens = st.list_of_tokens := by
  unfold stepDispatch at h
  split_ifs at h
  · exact dispatchNone_lot st c st' hc h
  · exact dispatchString_lot st c st' h
  · exact dispatchParen_false_lot st c st' h
  · cases h; rfl

theorem stepNewline_lot (st : TkState) (st' : TkState)
    (h : stepNewline st = .ok st') :
    st'.list_of_tokens = st.list_of_tokens := by
  unfold stepNewline at h
  split_ifs at h <;> (cases h; rfl)

theorem parseStep_false_lot (st : TkState) (c : Char) (st' : TkState)
    (h : parseStep false st c = .ok st') :
    st'.list_of_tokens = st.list_of_tokens := by
  unfold parseStep stepChar at h
  by_cases hsemi : c = ';'
  · rw [if_pos ⟨rfl, hsemi⟩] at h
    cases h
  · rw [if_neg (by simp [hsemi])] at h
    split_ifs at h with h1 h2 h3 h4
    · exact stepNewline_lot _ _ h
    · cases h; rfl
    · cases h; rfl
    · have hh := stepDispatch_false_lot _ _ _ hsemi h
      exact hh
    · have hh := stepDispatch_false_lot _ _ _ hsemi h
      exact hh

theorem foldSteps_false_lot : ∀ (l : List Char) (st st' : TkState),
    foldSteps false l st = .ok st' → st'.list_of_tokens = st.list_of_tokens := by
  intro l
  induction l with
  | nil => intro st st' h; cases h; rfl
  | cons c rest ih =>
    intro st st' h
    unfold foldSteps at h
    cases hp : parseStep false st c with
    | error e => rw [hp] at h; cases h
    | ok st1 =>
      rw [hp] at h
      rw [ih st1 st' h, parseStep_false_lot st c st1 hp]

/-- C2 as amended: when an expression-mode scan reaches end of input in
the keyword state (the final token is an open `Keyword`), the
accumulated statement is flushed implicitly — the trailing keyword is
emitted and the statement appended — and that single statement is
returned directly, not wrapped in a program list.  (The counterexample
shows the flush is skipped for every other final token kind, which
instead raises "Expected semicolon".) -/
theorem C2_expression_flush (s : List Char) (line col : Int) (st : TkState)
    (h1 : foldSteps false s (initState line col) = .ok st)
    (h2 : st.state = some TokenType.keyword) (h3 : st.token ≠ []) :
    Tokenizer.parse s line col false
      = .ok (.statement (st.keywords ++
          [mkToken TokenType.keyword (st.token_pos.getD ⟨0, 0⟩).line
            (st.token_pos.getD ⟨0, 0⟩).col st.token])) := by
  have hlot : st.list_of_tokens = [] := foldSteps_false_lot s (initState line col) st h1
  have hfin : finishParse false st
      = .ok [st.keywords ++
          [mkToken TokenType.keyword (st.token_pos.getD ⟨0, 0⟩).line
            (st.token_pos.getD ⟨0, 0⟩).col st.token]] := by
    unfold finishParse flushTrailing
    rw [if_pos h2, if_pos rfl, if_pos h3]
    unfold appendToken appendKeywords finishChecks
    simp [h2, hlot]
  have hexpr : parseExprTokens s line col
      = .ok (st.keywords ++
          [mkToken TokenType.keyword (st.token_pos.getD ⟨0, 0⟩).line
            (st.token_pos.getD ⟨0, 0⟩).col st.token]) := by
    unfold parseExprTokens runParse
    rw [h1]
    show (match finishParse false st with
      | Except.error e => Except.error e
      | Except.ok [] => Except.error JMCError.indexError
      | Except.ok (x :: _) => Except.ok x) = _
    rw [hfin]
  unfold Tokenizer.parse
  simp only [Bool.false_eq_true, if_false, hexpr]

/-- C2 amended claim, applied: expression-mode tokenization of `foo`
returns the single statement `[Keyword foo]` directly. -/
theorem C2_witness :
    Tokenizer.parse ("foo".data) 1 1 false
      = .ok (.statement [mkToken TokenType.keyword 1 1 ("foo".data)]) :=
  C2_expression_flush ("foo".data) 1 1
    { line := 1, col := 3, state := some TokenType.keyword, token := "foo".data,
      token_pos := some ⟨1, 1⟩, keywords := [], list_of_tokens := [], quote := none,
      is_escaped := false, paren := none, r_paren := none, paren_count := none,
      is_string := false, is_slash := false }
    rfl rfl (by decide)

/-- The `length` contract of `Token.__post_init__`. -/
def lengthOK (t : Token) : Prop :=
  t.length = if t.token_type = TokenType.string then t.string.length + 2 else t.string.length

theorem lengthOK_mkToken (tt : TokenType) (line col : Int) (s : List Char) :
    lengthOK (mkToken tt line col s) := rfl

def tokensWF (st : TkState) : Prop := ∀ t ∈ allTokens st, lengthOK t

theorem tokensWF_appendToken (st : TkState) (h : tokensWF st) :
    tokensWF (appendToken st) := by
  intro t ht
  simp only [allTokens, appendToken, List.mem_append, List.mem_singleton] at ht
  rcases ht with ht | ht | ht
  · exact h t (by simp [allTokens, ht])
  · exact h t (by simp [allTokens, ht])
  · rw [ht]; exact lengthOK_mkToken _ _ _ _

theorem tokensWF_appendKeywords (st : TkState) (h : tokensWF st) :
    tokensWF (appendKeywords st) := by
  intro t ht
  unfold appendKeywords at ht
  split_ifs at ht
  · exact h t ht
  · simp only [allTokens, List.flatten_append, List.flatten_cons, List.flatten_nil,
      List.mem_append, List.append_nil, List.not_mem_nil, or_false] at ht
    rcases ht with ht | ht
    · exact h t (by simp [allTokens, ht])
    · exact h t (by simp [allTokens, ht])

theorem dispatchNone_wf (st : TkState) (c : Char) (st' : TkState)
    (h : dispatchNone st c = .ok st') (hw : tokensWF st) : tokensWF st' := by
  unfold dispatchNone at h
  split_ifs at h <;>
    first
      | (cases h; exact hw)
      | (cases h; exact tokensWF_appendToken _ hw)
      | (cases h; exact tokensWF_appendKeywords _ hw)

theorem dispatchString_wf (st : TkState) (c : Char) (st' : TkState)
    (h : dispatchString st c = .ok st') (hw : tokensWF st) : tokensWF st' := by
  unfold dispatchString at h
  split_ifs at h with h1 h2 h3
  · cases h; exact hw
  · split at h
    · cases h; exact tokensWF_appendToken _ hw
    · cases h
  · cases h; exact hw
  · cases h; exact hw

theorem dispatchParen_wf (es : Bool) (st : TkState) (c : Char) (st' : TkState)
    (h : dispatchParen es st c = .ok st') (hw : tokensWF st) : tokensWF st' := by
  unfold dispatchParen at h
  split_ifs at h <;>
    first
      | (cases h; exact hw)
      | (cases h; exact tokensWF_appendToken _ hw)
      | (cases h; exact tokensWF_appendKeywords _ (tokensWF_appendToken _ hw))

theorem stepNewline_wf (st : TkState) (st' : TkState)
    (h : stepNewline st = .ok st') (hw : tokensWF st) : tokensWF st' := by
  unfold stepNewline at h
  split_ifs at h <;>
    first
      | (cases h; exact hw)
      | (cases h; exact tokensWF_appendToken _ hw)

theorem stepDispatch_wf (es : Bool) (st : TkState) (c : Char) (st' : TkState)
    (h : stepDispatch es st c = .ok st') (hw : tokensWF st) : tokensWF st' := by
  unfold stepDispatch at h
  split_ifs at h
  · exact dispatchNone_wf _ _ _ h hw
  · exact dispatchString_wf _ _ _ h hw
  · exact dispatchParen_wf _ _ _ _ h hw
  · cases h; exact hw

theorem stepChar_wf (es : Bool) (st : TkState) (c : Char) (st' : TkState)
    (h : stepChar es st c = .ok st') (hw : tokensWF st) : tokensWF st' := by
  unfold stepChar at h
  by_cases h1 : es = false ∧ c = ';'
  · rw [if_pos h1] at h; cases h
  · rw [if_neg h1] at h
    by_cases h2 : c = '\n'
    · rw [if_pos h2] at h
      exact stepNewline_wf _ _ h hw
    · rw [if_neg h2] at h
      by_cases h3 : c = '/' ∧ st.is_slash = true ∧ st.state ≠ some TokenType.string
      · rw [if_pos h3] at h; cases h; exact hw
      · rw [if_neg h3] at h
        by_cases h4 : st.state = some TokenType.keyword ∧ isKeywordTerminator c = false
        · rw [if_pos h4] at h; cases h; exact hw
        · rw [if_neg h4] at h
          by_cases h5 : st.state = some TokenType.keyword
          · rw [if_pos h5] at h
            exact stepDispatch_wf _ _ _ _ h (tokensWF_appendToken _ hw)
          · rw [if_neg h5] at h
            exact stepDispatch_wf _ _ _ _ h hw

theorem parseStep_wf (es : Bool) (st : TkState) (c : Char) (st' : TkState)
    (h : parseStep es st c = .ok st') (hw : tokensWF st) : tokensWF st' := by
  unfold parseStep at h
  exact stepChar_wf _ _ _ _ h hw

theorem foldSteps_wf (es : Bool) : ∀ (l : List Char) (st st' : TkState),
    foldSteps es l st = .ok st' → tokensWF st → tokensWF st' := by
  intro l
  induction l with
  | nil => intro st st' h hw; cases h; exact hw
  | cons c rest ih =>
    intro st st' h hw
    unfold foldSteps at h
    cases hp : parseStep es st c with
    | error e => rw [hp] at h; cases h
    | ok st1 =>
      rw [hp] at h
      exact ih st1 st' h (parseStep_wf _ _ _ _ hp hw)

theorem tokensWF_initState (line col : Int) : tokensWF (initState line col) := by
  intro t ht
  simp [allTokens, initState] at ht

theorem runParse_wf (es : Bool) (s : List Char) (line col : Int)
    (lot : List (List Token)) (h : runParse es s line col = .ok lot) :
    ∀ t ∈ lot.flatten, lengthOK t := by
  unfold runParse at h
  cases hf : foldSteps es s (initState line col) with
  | error e => rw [hf] at h; cases h
  | ok st =>
    rw [hf] at h
    have hw : tokensWF st := foldSteps_wf es s (initState line col) st hf
      (tokensWF_initState line col)
    have hw2 : tokensWF (if st.state = some TokenType.keyword then
        (if es = false then appendKeywords (flushTrailing st) else flushTrailing st)
      else st) := by
      have hwf : tokensWF (flushTrailing st) := by
        unfold flushTrailing
        split_ifs
        · exact tokensWF_appendToken _ hw
        · exact hw
      split_ifs
      · exact tokensWF_appendKeywords _ hwf
      · exact hwf
      · exact hw
    have key : ∀ st2 : TkState, tokensWF st2 → finishChecks st2 = .ok lot →
        ∀ t ∈ lot.flatten, lengthOK t := by
      intro st2 hw2 h2
      unfold finishChecks at h2
      split_ifs at h2
      · cases hgl : st2.keywords.getLast? with
        | some t => rw [hgl] at h2; cases h2
        | none => rw [hgl] at h2; cases h2
      · cases h2
        intro t ht
        exact hw2 t (by simp only [allTokens, List.mem_append]; exact Or.inl ht)
    exact key _ hw2 h

/-- C4: for every token emitted by the tokenizer, in either mode, the
`length` field equals `len(text) + 2` for `String` tokens and
`len(text)` for every other kind — every token is built by the dataclass
constructor whose `__post_init__` computes exactly this. -/
theorem C4_length_field (s : List Char) (line col : Int) (es : Bool)
    (res : ParseResult) (h : Tokenizer.parse s line col es = .ok res) :
    ∀ t ∈ res.tokens, t.length =
      if t.token_type = TokenType.string then t.string.length + 2
      else t.string.length := by
  unfold Tokenizer.parse at h
  cases es with
  | true =>
    rw [if_pos rfl] at h
    cases hr : runParse true s line col with
    | error e => rw [hr] at h; cases h
    | ok lot =>
      rw [hr] at h
      cases h
      exact runParse_wf true s line col lot hr
  | false =>
    rw [if_neg (by simp)] at h
    unfold parseExprTokens at h
    cases hr : runParse false s line col with
    | error e => rw [hr] at h; cases h
    | ok lot =>
      rw [hr] at h
      match lot, hr with
      | [], hr => cases h
      | x :: rest, hr =>
        cases h
        intro t ht
        exact runParse_wf false s line col (x :: rest) hr t
          (by simp only [List.flatten_cons, List.mem_append]; exact Or.inl ht)

/-- C4, applied: the `String` token emitted for `"hi"` has length 4,
`len("hi") + 2`. -/
theorem C4_witness :
    (mkToken TokenType.string 1 1 ("hi".data)).length
      = (if (mkToken TokenType.string 1 1 ("hi".data)).token_type = TokenType.string
          then (mkToken TokenType.string 1 1 ("hi".data)).string.length + 2
          else (mkToken TokenType.string 1 1 ("hi".data)).string.length) :=
  C4_length_field ("\"hi\" x;".data) 1 1 true
    (.program [[mkToken TokenType.string 1 1 ("hi".data),
      mkToken TokenType.keyword 1 6 ('x' :: [])]]) rfl
    (mkToken TokenType.string 1 1 ("hi".data)) (by decide)

theorem parenScanStep_esc (o c : Char) (s : ParenScan) (ch : Char)
    (h : s.in_string = false → s.esc = false) :
    (parenScanStep o c s ch).in_string = false → (parenScanStep o c s ch).esc = false := by
  unfold parenScanStep
  split_ifs <;> simp_all

theorem parenScanList_esc_aux (o c : Char) : ∀ (l : List Char) (s : ParenScan),
    (s.in_string = false → s.esc = false) →
    ((l.foldl (parenScanStep o c) s).in_string = false →
      (l.foldl (parenScanStep o c) s).esc = false) := by
  intro l
  induction l with
  | nil => intro s h; exact h
  | cons ch rest ih =>
    intro s h
    exact ih _ (parenScanStep_esc o c s ch h)

theorem parenScanList_esc (o c : Char) (l : List Char)
    (h : (parenScanList o c l).in_string = false) : (parenScanList o c l).esc = false :=
  parenScanList_esc_aux o c l parenScanInit (fun _ => rfl) h

theorem parenScanList_append (o c : Char) (l : List Char) (ch : Char) :
    parenScanList o c (l ++ [ch]) = parenScanStep o c (parenScanList o c l) ch := by
  unfold parenScanList
  rw [List.foldl_append]
  rfl

/-- The in-bracket part of the scanner invariant: while a bracket group
is open, the accumulated token text is the opener followed by a body
whose re-scan has not closed, and the scanner's depth counter,
inner-string flag, inner quote, and escape flag agree with the re-scan
of that body. -/
def ScanInv (st : TkState) : Prop :=
  ∃ o body,
    st.paren = some o ∧ isOpenParen o = true ∧ st.r_paren = some (parenPair o)
    ∧ st.token = o :: body
    ∧ (parenScanList o (parenPair o) body).closed = false
    ∧ st.paren_count = some (parenScanList o (parenPair o) body).depth
    ∧ st.is_string = (parenScanList o (parenPair o) body).in_string
    ∧ (st.is_string = true → st.quote = some (parenScanList o (parenPair o) body).quote)
    ∧ st.is_escaped = (parenScanList o (parenPair o) body).esc

/-- The full scanner invariant used for the bracket-token property, for
runs over inputs containing no `/`: all emitted tokens satisfy the
bracket property, `is_slash` stays false (so the `//` comment rule never
fires), the token buffer is empty outside an open token, the
inner-string flag is only set inside a bracket group, the escape flag is
clear outside string content, and the in-bracket linkage holds. -/
def C1Inv (st : TkState) : Prop :=
  (∀ t ∈ allTokens st, goodToken t)
  ∧ st.is_slash = false
  ∧ (st.state = none ∨ st.state = some TokenType.comment → st.token = [])
  ∧ (st.state ≠ some TokenType.paren → st.is_string = false)
  ∧ ((st.state = none ∨ st.state = some TokenType.comment
      ∨ st.state = some TokenType.keyword) → st.is_escaped = false)
  ∧ (st.state = some TokenType.paren → ScanInv st)

theorem goodTokens_appendToken (st : TkState)
    (h : ∀ t ∈ allTokens st, goodToken t)
    (hnew : goodToken (mkToken (st.state.getD TokenType.keyword)
      (st.token_pos.getD ⟨0, 0⟩).line (st.token_pos.getD ⟨0, 0⟩).col st.token)) :
    ∀ t ∈ allTokens (appendToken st), goodToken t := by
  intro t ht
  simp only [allTokens, appendToken, List.mem_append, List.mem_singleton] at ht
  rcases ht with ht | ht | ht
  · exact h t (by simp [allTokens, ht])
  · exact h t (by simp [allTokens, ht])
  · rw [ht]; exact hnew

theorem C1Inv_appendKeywords (st : TkState) (h : C1Inv st) : C1Inv (appendKeywords st) := by
  obtain ⟨h1, h2, h3, h4, h5, h6⟩ := h
  unfold appendKeywords
  split_ifs with hk
  · exact ⟨h1, h2, h3, h4, h5, h6⟩
  · refine ⟨?_, h2, h3, h4, h5, h6⟩
    intro t ht
    simp only [allTokens, List.flatten_append, List.flatten_cons, List.flatten_nil,
      List.append_nil, List.mem_append, List.not_mem_nil, or_false] at ht
    rcases ht with ht | ht
    · exact h1 t (by simp [allTokens, ht])
    · exact h1 t (by simp [allTokens, ht])

theorem dispatchNone_inv (st : TkState) (c : Char) (st' : TkState)
    (hc : c ≠ '/') (hst : st.state = none) (hI : C1Inv st)
    (h : dispatchNone st c = .ok st') : C1Inv st' := by
  obtain ⟨h1, h2, h3, h4, h5, h6⟩ := hI
  have htok : st.token = [] := h3 (Or.inl hst)
  have hstr : st.is_string = false := h4 (by rw [hst]; simp)
  have hesc : st.is_escaped = false := h5 (Or.inl hst)
  unfold dispatchNone at h
  split_ifs at h with hq hsp hsemi hop hcl hhash hcomma
  · -- string literal opens
    cases h
    refine ⟨h1, by simp [hc], ?_, fun _ => hstr, ?_, ?_⟩
    · rintro (hx | hx) <;> simp at hx
    · rintro (hx | hx | hx) <;> simp at hx
    · intro hx; simp at hx
  · -- whitespace
    cases h
    exact ⟨h1, h2, h3, h4, h5, h6⟩
  · -- semicolon: statement flush
    cases h
    exact C1Inv_appendKeywords _ ⟨h1, by simp [hc], h3, h4, h5, h6⟩
  · -- bracket group opens
    cases h
    refine ⟨h1, by simp [hc], ?_, ?_, ?_, ?_⟩
    · rintro (hx | hx) <;> simp at hx
    · intro hx; exact absurd rfl hx
    · rintro (hx | hx | hx) <;> simp at hx
    · intro _
      refine ⟨c, [], rfl, hop, rfl, by simp [htok], rfl, rfl, hstr, ?_, hesc⟩
      intro hx
      simp [hstr] at hx
  · -- hash comment
    cases h
    refine ⟨h1, by simp [hc], fun _ => htok, fun _ => hstr, fun _ => hesc, ?_⟩
    intro hx; simp at hx
  · -- comma token
    cases h
    refine ⟨?_, by simp [appendToken, hc], fun _ => rfl, fun _ => hstr, fun _ => hesc, ?_⟩
    · refine goodTokens_appendToken _ ?_ ?_
      · exact h1
      · exact goodToken_of_not_paren TokenType.comma _ _ _
          (by decide) (by decide) (by decide)
    · intro hx; simp [appendToken] at hx
  · -- keyword opens
    cases h
    refine ⟨h1, by simp [hc], ?_, fun _ => hstr, fun _ => hesc, ?_⟩
    · rintro (hx | hx) <;> simp at hx
    · intro hx; simp at hx

theorem dispatchString_inv (st : TkState) (c : Char) (st' : TkState)
    (hc : c ≠ '/') (hst : st.state = some TokenType.string) (hI : C1Inv st)
    (h : dispatchString st c = .ok st') : C1Inv st' := by
  obtain ⟨h1, h2, h3, h4, h5, h6⟩ := hI
  have hstr : st.is_string = false := h4 (by rw [hst]; simp)
  unfold dispatchString at h
  split_ifs at h with hb hq he
  · -- backslash: set escape flag
    cases h
    refine ⟨h1, by simp [hc], ?_, fun _ => hstr, ?_, ?_⟩
    · rintro (hx | hx) <;> simp [hst] at hx
    · rintro (hx | hx | hx) <;> simp [hst] at hx
    · intro hx; simp [hst] at hx
  · -- unescaped closing quote: decode and emit
    split at h
    · cases h
      refine ⟨?_, by simp [appendToken, hc], fun _ => rfl, fun _ => hstr,
        fun _ => hq.2, ?_⟩
      · refine goodTokens_appendToken _ ?_ ?_
        · exact h1
        · simp only [hst]
          exact goodToken_of_not_paren TokenType.string _ _ _
            (by decide) (by decide) (by decide)
      · intro hx; simp [appendToken] at hx
    · cases h
  · -- escaped character: clear flag
    cases h
    refine ⟨h1, by simp [hc], ?_, fun _ => hstr, ?_, ?_⟩
    · rintro (hx | hx) <;> simp [hst] at hx
    · rintro (hx | hx | hx) <;> simp [hst] at hx
    · intro hx; simp [hst] at hx
  · -- ordinary character
    cases h
    refine ⟨h1, by simp [hc], ?_, fun _ => hstr, ?_, ?_⟩
    · rintro (hx | hx) <;> simp [hst] at hx
    · rintro (hx | hx | hx) <;> simp [hst] at hx
    · intro hx; simp [hst] at hx

theorem stepNewline_inv (st : TkState) (st' : TkState)
    (hI : C1Inv st) (h : stepNewline st = .ok st') : C1Inv st' := by
  obtain ⟨h1, h2, h3, h4, h5, h6⟩ := hI
  unfold stepNewline at h
  split_ifs at h with hs hcm hkw hp
  · -- comment ends
    cases h
    refine ⟨h1, h2, fun _ => h3 (Or.inr hcm), fun _ => h4 (by rw [hcm]; simp),
      fun _ => h5 (Or.inr (Or.inl hcm)), ?_⟩
    intro hx; simp at hx
  · -- keyword flushes
    cases h
    refine ⟨?_, by simpa [appendToken] using h2, fun _ => rfl,
      fun _ => h4 (by rw [hkw]; simp), fun _ => h5 (Or.inr (Or.inr hkw)), ?_⟩
    · refine goodTokens_appendToken _ ?_ ?_
      · exact h1
      · simp only [hkw]
        exact goodToken_of_not_paren TokenType.keyword _ _ _
          (by decide) (by decide) (by decide)
    · intro hx; simp [appendToken] at hx
  · -- newline appended to an open bracket group
    cases h
    obtain ⟨o, body, hpar, hopo, hrp, htokeq, hclosed, hcount, hisstr, hquote, hesc⟩ := h6 hp
    have hstep : parenScanList o (parenPair o) (body ++ ['\n'])
        = parenScanList o (parenPair o) body := by
      rw [parenScanList_append]
      unfold parenScanStep
      rw [if_neg (by simp [hclosed]), if_pos rfl]
    refine ⟨h1, h2, ?_, ?_, ?_, ?_⟩
    · rintro (hx | hx) <;> simp [hp] at hx
    · intro hx; exact absurd hp hx
    · rintro (hx | hx | hx) <;> simp [hp] at hx
    · intro _
      refine ⟨o, body ++ ['\n'], hpar, hopo, hrp, by simp [htokeq], ?_, ?_, ?_, ?_, ?_⟩
      · rw [hstep]; exact hclosed
      · rw [hstep]; exact hcount
      · rw [hstep]; exact hisstr
      · rw [hstep]; exact hquote
      · rw [hstep]; exact hesc
  · -- no open token
    cases h
    refine ⟨h1, h2, fun hx => h3 hx, fun hx => h4 hx, fun hx => h5 hx, ?_⟩
    intro hx; exact absurd hx hp

theorem isOpenParen_cases (o : Char) (h : isOpenParen o = true) :
    o = '{' ∨ o = '(' ∨ o = '[' := by
  unfold isOpenParen at h
  simpa [or_assoc] using h

theorem parenPair_ne_self (o : Char) (h : isOpenParen o = true) : parenPair o ≠ o := by
  rcases isOpenParen_cases o h with ho | ho | ho <;> subst ho <;> decide

theorem close_balanced (o : Char) (body : List Char) (hopo : isOpenParen o = true)
    (hclosed : (parenScanList o (parenPair o) body).closed = false)
    (hdep : (parenScanList o (parenPair o) body).depth = 0)
    (hinsF : (parenScanList o (parenPair o) body).in_string = false) :
    parenBalancedText o (parenPair o) (o :: (body ++ [parenPair o])) = true := by
  have hcn : parenPair o ≠ '\n' := by
    rcases isOpenParen_cases o hopo with ho | ho | ho <;> subst ho <;> decide
  have hstep : parenScanList o (parenPair o) (body ++ [parenPair o])
      = { parenScanList o (parenPair o) body with closed := true } := by
    rw [parenScanList_append]
    unfold parenScanStep
    rw [if_neg (by simp [hclosed]), if_neg hcn, if_neg (by simp [hinsF]), if_pos ⟨rfl, hdep⟩]
  unfold parenBalancedText
  simp [List.getLast?_concat, List.dropLast_concat, hclosed, hstep]

theorem dispatchParen_inv (es : Bool) (st : TkState) (c : Char) (st' : TkState)
    (hc : c ≠ '/') (hcn : c ≠ '\n') (hst : st.state = some TokenType.paren)
    (hI : C1Inv st) (h : dispatchParen es st c = .ok st') : C1Inv st' := by
  obtain ⟨h1, h2, h3, h4, h5, h6⟩ := hI
  obtain ⟨o, body, hpar, hopo, hrp, htokeq, hclosed, hcount, hisstr, hquote, hesc⟩ := h6 hst
  unfold dispatchParen at h
  split_ifs at h with his hb hq he hclx hcur hesx hrnd hsqr hinc hdec hqt
  · -- inner string: backslash sets the escape flag
    cases h
    have hins : (parenScanList o (parenPair o) body).in_string = true := by
      rw [← hisstr]; exact his
    have hesc0 : (parenScanList o (parenPair o) body).esc = false := by
      rw [← hesc]; exact hb.2
    have hstep : parenScanList o (parenPair o) (body ++ [c])
        = { parenScanList o (parenPair o) body with esc := true } := by
      rw [parenScanList_append]
      unfold parenScanStep
      rw [if_neg (by simp [hclosed]), if_neg hcn, if_pos hins, if_pos ⟨hb.1, hesc0⟩]
    refine ⟨h1, by simp [hc], ?_, fun hx => absurd hst hx, ?_, ?_⟩
    · rintro (hx | hx) <;> simp [hst] at hx
    · rintro (hx | hx | hx) <;> simp [hst] at hx
    · intro _
      refine ⟨o, body ++ [c], hpar, hopo, hrp, by simp [htokeq], ?_, ?_, ?_, ?_, ?_⟩
      · rw [hstep]; exact hclosed
      · rw [hstep]; exact hcount
      · rw [hstep]; exact hisstr
      · rw [hstep]; intro hx; exact hquote hx
      · rw [hstep]
  · -- inner string: unescaped matching quote closes it
    cases h
    have hins : (parenScanList o (parenPair o) body).in_string = true := by
      rw [← hisstr]; exact his
    have hesc0 : (parenScanList o (parenPair o) body).esc = false := by
      rw [← hesc]; exact hq.2
    have hcq : c = (parenScanList o (parenPair o) body).quote := by
      have := hq.1
      rw [hquote his] at this
      exact Option.some.inj this
    have hstep : parenScanList o (parenPair o) (body ++ [c])
        = { parenScanList o (parenPair o) body with in_string := false } := by
      rw [parenScanList_append]
      unfold parenScanStep
      rw [if_neg (by simp [hclosed]), if_neg hcn, if_pos hins,
        if_neg (fun hx => hb ⟨hx.1, by rw [← hesc] at hx; exact hx.2⟩),
        if_pos ⟨hcq, hesc0⟩]
    refine ⟨h1, by simp [hc], ?_, fun hx => absurd hst hx, ?_, ?_⟩
    · rintro (hx | hx) <;> simp [hst] at hx
    · rintro (hx | hx | hx) <;> simp [hst] at hx
    · intro _
      refine ⟨o, body ++ [c], hpar, hopo, hrp, by simp [htokeq], ?_, ?_, ?_, ?_, ?_⟩
      · rw [hstep]; exact hclosed
      · rw [hstep]; exact hcount
      · rw [hstep]
      · intro hx; simp at hx
      · rw [hstep]; exact hesc
  · -- inner string: escaped character clears the flag
    cases h
    have hins : (parenScanList o (parenPair o) body).in_string = true := by
      rw [← hisstr]; exact his
    have hesc1 : (parenScanList o (parenPair o) body).esc = true := by
      rw [← hesc]; exact he
    have hstep : parenScanList o (parenPair o) (body ++ [c])
        = { parenScanList o (parenPair o) body with esc := false } := by
      rw [parenScanList_append]
      unfold parenScanStep
      rw [if_neg (by simp [hclosed]), if_neg hcn, if_pos hins,
        if_neg (by simp [hesc1]), if_neg (by simp [hesc1]), if_pos hesc1]
    refine ⟨h1, by simp [hc], ?_, fun hx => absurd hst hx, ?_, ?_⟩
    · rintro (hx | hx) <;> simp [hst] at hx
    · rintro (hx | hx | hx) <;> simp [hst] at hx
    · intro _
      refine ⟨o, body ++ [c], hpar, hopo, hrp, by simp [htokeq], ?_, ?_, ?_, ?_, ?_⟩
      · rw [hstep]; exact hclosed
      · rw [hstep]; exact hcount
      · rw [hstep]; exact hisstr
      · rw [hstep]; intro hx; exact hquote hx
      · rw [hstep]
  · -- inner string: ordinary character
    cases h
    have hins : (parenScanList o (parenPair o) body).in_string = true := by
      rw [← hisstr]; exact his
    have hstep : parenScanList o (parenPair o) (body ++ [c])
        = parenScanList o (parenPair o) body := by
      rw [parenScanList_append]
      unfold parenScanStep
      rw [if_neg (by simp [hclosed]), if_neg hcn, if_pos hins,
        if_neg (fun hx => hb ⟨hx.1, by rw [← hesc] at hx; exact hx.2⟩),
        if_neg (fun hx => hq ⟨by rw [hquote his]; exact congrArg some hx.1,
          by rw [hesc]; exact hx.2⟩),
        if_neg (by rw [← hesc]; exact he)]
    refine ⟨h1, by simp [hc], ?_, fun hx => absurd hst hx, ?_, ?_⟩
    · rintro (hx | hx) <;> simp [hst] at hx
    · rintro (hx | hx | hx) <;> simp [hst] at hx
    · intro _
      refine ⟨o, body ++ [c], hpar, hopo, hrp, by simp [htokeq], ?_, ?_, ?_, ?_, ?_⟩
      · rw [hstep]; exact hclosed
      · rw [hstep]; exact hcount
      · rw [hstep]; exact hisstr
      · rw [hstep]; intro hx; exact hquote hx
      · rw [hstep]; exact hesc
  all_goals have hisF : st.is_string = false := by simpa using his
  all_goals have hinsF : (parenScanList o (parenPair o) body).in_string = false := by rw [← hisstr]; exact hisF
  all_goals have hesc2 : (parenScanList o (parenPair o) body).esc = false := parenScanList_esc _ _ _ hinsF
  all_goals have hescF : st.is_escaped = false := by rw [hesc]; exact hesc2
  · -- '}' closes a curly group and, in statement mode, flushes the statement
    cases h
    have hcp : c = parenPair o := by
      have hx := hclx.1; rw [hrp] at hx; exact Option.some.inj hx
    have hdep : (parenScanList o (parenPair o) body).depth = 0 := by
      have hx := hcount.symm.trans hclx.2; exact Option.some.inj hx
    have ho : o = '{' := Option.some.inj (hpar.symm.trans hcur)
    subst ho
    subst hcp
    have hbal : parenBalancedText '{' (parenPair '{') (st.token ++ [parenPair '{']) = true := by
      rw [htokeq]
      simpa using close_balanced '{' body hopo hclosed hdep hinsF
    refine C1Inv_appendKeywords _
      ⟨?_, by simpa [appendToken] using h2, fun _ => rfl, fun _ => hisF, fun _ => hescF, ?_⟩
    · refine goodTokens_appendToken _ ?_ ?_
      · exact h1
      · exact ⟨fun hx => by simp [mkToken] at hx, fun hx => by simp [mkToken] at hx,
          fun _ => hbal⟩
    · intro hx; simp [appendToken] at hx
  · -- '}' closes a curly group in expression mode (no flush)
    cases h
    have hcp : c = parenPair o := by
      have hx := hclx.1; rw [hrp] at hx; exact Option.some.inj hx
    have hdep : (parenScanList o (parenPair o) body).depth = 0 := by
      have hx := hcount.symm.trans hclx.2; exact Option.some.inj hx
    have ho : o = '{' := Option.some.inj (hpar.symm.trans hcur)
    subst ho
    subst hcp
    have hbal : parenBalancedText '{' (parenPair '{') (st.token ++ [parenPair '{']) = true := by
      rw [htokeq]
      simpa using close_balanced '{' body hopo hclosed hdep hinsF
    refine ⟨?_, by simpa [appendToken] using h2, fun _ => rfl, fun _ => hisF,
      fun _ => hescF, ?_⟩
    · refine goodTokens_appendToken _ ?_ ?_
      · exact h1
      · exact ⟨fun hx => by simp [mkToken] at hx, fun hx => by simp [mkToken] at hx,
          fun _ => hbal⟩
    · intro hx; simp [appendToken] at hx
  · -- ')' closes a round group
    cases h
    have hcp : c = parenPair o := by
      have hx := hclx.1; rw [hrp] at hx; exact Option.some.inj hx
    have hdep : (parenScanList o (parenPair o) body).depth = 0 := by
      have hx := hcount.symm.trans hclx.2; exact Option.some.inj hx
    have ho : o = '(' := Option.some.inj (hpar.symm.trans hrnd)
    subst ho
    subst hcp
    have hbal : parenBalancedText '(' (parenPair '(') (st.token ++ [parenPair '(']) = true := by
      rw [htokeq]
      simpa using close_balanced '(' body hopo hclosed hdep hinsF
    refine ⟨?_, by simpa [appendToken] using h2, fun _ => rfl, fun _ => hisF,
      fun _ => hescF, ?_⟩
    · refine goodTokens_appendToken _ ?_ ?_
      · exact h1
      · exact ⟨fun _ => hbal, fun hx => by simp [mkToken] at hx,
          fun hx => by simp [mkToken] at hx⟩
    · intro hx; simp [appendToken] at hx
  · -- ']' closes a square group
    cases h
    have hcp : c = parenPair o := by
      have hx := hclx.1; rw [hrp] at hx; exact Option.some.inj hx
    have hdep : (parenScanList o (parenPair o) body).depth = 0 := by
      have hx := hcount.symm.trans hclx.2; exact Option.some.inj hx
    have ho : o = '[' := Option.some.inj (hpar.symm.trans hsqr)
    subst ho
    subst hcp
    have hbal : parenBalancedText '[' (parenPair '[') (st.token ++ [parenPair '[']) = true := by
      rw [htokeq]
      simpa using close_balanced '[' body hopo hclosed hdep hinsF
    refine ⟨?_, by simpa [appendToken] using h2, fun _ => rfl, fun _ => hisF,
      fun _ => hescF, ?_⟩
    · refine goodTokens_appendToken _ ?_ ?_
      · exact h1
      · exact ⟨fun hx => by simp [mkToken] at hx, fun _ => hbal,
          fun hx => by simp [mkToken] at hx⟩
    · intro hx; simp [appendToken] at hx
  · -- unreachable: the opener is always one of the three brackets
    rcases isOpenParen_cases o hopo with ho | ho | ho <;> subst ho
    · exact absurd hpar hcur
    · exact absurd hpar hrnd
    · exact absurd hpar hsqr
  · -- another opener: depth increases
    cases h
    have hco : c = o := by
      have hx := hinc; rw [hpar] at hx; exact Option.some.inj hx
    subst hco
    have hstep : parenScanList c (parenPair c) (body ++ [c])
        = { parenScanList c (parenPair c) body with
            depth := (parenScanList c (parenPair c) body).depth + 1 } := by
      rw [parenScanList_append]
      unfold parenScanStep
      rw [if_neg (by simp [hclosed]), if_neg hcn, if_neg (by simp [hinsF]),
        if_neg (fun hx => parenPair_ne_self c hopo hx.1.symm), if_pos rfl]
    refine ⟨h1, by simp [hc], ?_, fun hx => absurd hst hx, ?_, ?_⟩
    · rintro (hx | hx) <;> simp [hst] at hx
    · rintro (hx | hx | hx) <;> simp [hst] at hx
    · intro _
      refine ⟨c, body ++ [c], hpar, hopo, hrp, by simp [htokeq], ?_, ?_, ?_, ?_, ?_⟩
      · rw [hstep]; exact hclosed
      · rw [hstep, hcount]; rfl
      · rw [hstep]; exact hisstr
      · rw [hstep]; intro hx; exact hquote hx
      · rw [hstep]; exact hesc
  · -- the closer at positive depth: depth decreases
    cases h
    have hcp : c = parenPair o := by
      have hx := hdec; rw [hrp] at hx; exact Option.some.inj hx
    subst hcp
    have hd0 : (parenScanList o (parenPair o) body).depth ≠ 0 := by
      intro e
      exact hclx ⟨hdec, by rw [hcount, e]⟩
    have hstep : parenScanList o (parenPair o) (body ++ [parenPair o])
        = { parenScanList o (parenPair o) body with
            depth := (parenScanList o (parenPair o) body).depth - 1 } := by
      rw [parenScanList_append]
      unfold parenScanStep
      rw [if_neg (by simp [hclosed]), if_neg hcn, if_neg (by simp [hinsF]),
        if_neg (fun hx => hd0 hx.2), if_neg (parenPair_ne_self o hopo), if_pos rfl]
    refine ⟨h1, by simp [hc], ?_, fun hx => absurd hst hx, ?_, ?_⟩
    · rintro (hx | hx) <;> simp [hst] at hx
    · rintro (hx | hx | hx) <;> simp [hst] at hx
    · intro _
      refine ⟨o, body ++ [parenPair o], hpar, hopo, hrp, by simp [htokeq], ?_, ?_, ?_, ?_, ?_⟩
      · rw [hstep]; exact hclosed
      · rw [hstep, hcount]; rfl
      · rw [hstep]; exact hisstr
      · rw [hstep]; intro hx; exact hquote hx
      · rw [hstep]; exact hesc
  · -- a quote opens an inner string
    cases h
    have hstep : parenScanList o (parenPair o) (body ++ [c])
        = { parenScanList o (parenPair o) body with in_string := true, quote := c } := by
      rw [parenScanList_append]
      unfold parenScanStep
      rw [if_neg (by simp [hclosed]), if_neg hcn, if_neg (by simp [hinsF]),
        if_neg (fun hx => hdec (by rw [hrp]; exact congrArg some hx.1)),
        if_neg (fun hx => hinc (by rw [hpar]; exact congrArg some hx)),
        if_neg (fun hx => hdec (by rw [hrp]; exact congrArg some hx)), if_pos hqt]
    refine ⟨h1, by simp [hc], ?_, fun hx => absurd hst hx, ?_, ?_⟩
    · rintro (hx | hx) <;> simp [hst] at hx
    · rintro (hx | hx | hx) <;> simp [hst] at hx
    · intro _
      refine ⟨o, body ++ [c], hpar, hopo, hrp, by simp [htokeq], ?_, ?_, ?_, ?_, ?_⟩
      · rw [hstep]; exact hclosed
      · rw [hstep]; exact hcount
      · rw [hstep]
      · intro _; rw [hstep]
      · rw [hstep]; exact hesc
  · -- any other character inside the bracket group
    cases h
    have hstep : parenScanList o (parenPair o) (body ++ [c])
        = parenScanList o (parenPair o) body := by
      rw [parenScanList_append]
      unfold parenScanStep
      rw [if_neg (by simp [hclosed]), if_neg hcn, if_neg (by simp [hinsF]),
        if_neg (fun hx => hdec (by rw [hrp]; exact congrArg some hx.1)),
        if_neg (fun hx => hinc (by rw [hpar]; exact congrArg some hx)),
        if_neg (fun hx => hdec (by rw [hrp]; exact congrArg some hx)),
        if_neg (by simp [hqt])]
    refine ⟨h1, by simp [hc], ?_, fun hx => absurd hst hx, ?_, ?_⟩
    · rintro (hx | hx) <;> simp [hst] at hx
    · rintro (hx | hx | hx) <;> simp [hst] at hx
    · intro _
      refine ⟨o, body ++ [c], hpar, hopo, hrp, by simp [htokeq], ?_, ?_, ?_, ?_, ?_⟩
      · rw [hstep]; exact hclosed
      · rw [hstep]; exact hcount
      · rw [hstep]; exact hisstr
      · rw [hstep]; intro hx; exact hquote hx
      · rw [hstep]; exact hesc

theorem stepDispatch_inv (es : Bool) (st : TkState) (c : Char) (st' : TkState)
    (hc : c ≠ '/') (hcn : c ≠ '\n') (hI : C1Inv st)
    (h : stepDispatch es st c = .ok st') : C1Inv st' := by
  unfold stepDispatch at h
  split_ifs at h with hn hs hp
  · exact dispatchNone_inv _ _ _ hc hn hI h
  · exact dispatchString_inv _ _ _ hc hs hI h
  · exact dispatchParen_inv _ _ _ _ hc hcn hp hI h
  · cases h
    obtain ⟨h1, h2, h3, h4, h5, h6⟩ := hI
    exact ⟨h1, by simp [hc], h3, h4, h5, h6⟩

theorem stepChar_inv (es : Bool) (st : TkState) (c : Char) (st' : TkState)
    (hc : c ≠ '/') (hI : C1Inv st)
    (h : stepChar es st c = .ok st') : C1Inv st' := by
  obtain ⟨h1, h2, h3, h4, h5, h6⟩ := hI
  unfold stepChar at h
  by_cases hx1 : es = false ∧ c = ';'
  · rw [if_pos hx1] at h; cases h
  · rw [if_neg hx1] at h
    by_cases hx2 : c = '\n'
    · rw [if_pos hx2] at h
      exact stepNewline_inv _ _ ⟨h1, h2, h3, h4, h5, h6⟩ h
    · rw [if_neg hx2] at h
      rw [if_neg (fun hy => hc hy.1)] at h
      by_cases hx4 : st.state = some TokenType.keyword ∧ isKeywordTerminator c = false
      · rw [if_pos hx4] at h
        cases h
        refine ⟨h1, h2, ?_, fun _ => h4 (by rw [hx4.1]; simp),
          fun _ => h5 (Or.inr (Or.inr hx4.1)), ?_⟩
        · rintro (hy | hy) <;> simp [hx4.1] at hy
        · intro hy; simp [hx4.1] at hy
      · rw [if_neg hx4] at h
        by_cases hx5 : st.state = some TokenType.keyword
        · rw [if_pos hx5] at h
          refine stepDispatch_inv _ _ _ _ hc hx2 ?_ h
          refine ⟨?_, by simpa [appendToken] using h2, fun _ => rfl,
            fun _ => h4 (by rw [hx5]; simp), fun _ => h5 (Or.inr (Or.inr hx5)), ?_⟩
          · refine goodTokens_appendToken _ ?_ ?_
            · exact h1
            · simp only [hx5]
              exact goodToken_of_not_paren TokenType.keyword _ _ _
                (by decide) (by decide) (by decide)
          · intro hy; simp [appendToken] at hy
        · rw [if_neg hx5] at h
          exact stepDispatch_inv _ _ _ _ hc hx2 ⟨h1, h2, h3, h4, h5, h6⟩ h

theorem parseStep_inv (es : Bool) (st : TkState) (c : Char) (st' : TkState)
    (hc : c ≠ '/') (hI : C1Inv st)
    (h : parseStep es st c = .ok st') : C1Inv st' := by
  unfold parseStep at h
  refine stepChar_inv _ _ _ _ hc ?_ h
  exact hI

theorem foldSteps_inv (es : Bool) : ∀ (l : List Char) (st st' : TkState),
    (∀ c ∈ l, c ≠ '/') → foldSteps es l st = .ok st' → C1Inv st → C1Inv st' := by
  intro l
  induction l with
  | nil => intro st st' _ h hI; cases h; exact hI
  | cons c rest ih =>
    intro st st' hs h hI
    unfold foldSteps at h
    cases hp : parseStep es st c with
    | error e => rw [hp] at h; cases h
    | ok st1 =>
      rw [hp] at h
      exact ih st1 st' (fun d hd => hs d (List.mem_cons_of_mem c hd)) h
        (parseStep_inv _ _ _ _ (hs c (List.mem_cons_self c rest)) hI hp)

theorem C1Inv_initState (line col : Int) : C1Inv (initState line col) := by
  refine ⟨?_, rfl, fun _ => rfl, fun _ => rfl, fun _ => rfl, ?_⟩
  · intro t ht
    simp [allTokens, initState] at ht
  · intro hx; simp [initState] at hx

theorem allTokensP_appendKeywords (P : Token → Prop) (st : TkState)
    (h : ∀ t ∈ allTokens st, P t) : ∀ t ∈ allTokens (appendKeywords st), P t := by
  intro t ht
  unfold appendKeywords at ht
  split_ifs at ht
  · exact h t ht
  · simp only [allTokens, List.flatten_append, List.flatten_cons, List.flatten_nil,
      List.append_nil, List.mem_append, List.not_mem_nil, or_false] at ht
    rcases ht with ht | ht
    · exact h t (by simp [allTokens, ht])
    · exact h t (by simp [allTokens, ht])

theorem goodTokens_flushTrailing (st : TkState)
    (hk : st.state = some TokenType.keyword)
    (h1 : ∀ t ∈ allTokens st, goodToken t) :
    ∀ t ∈ allTokens (flushTrailing st), goodToken t := by
  unfold flushTrailing
  split_ifs
  · refine goodTokens_appendToken _ ?_ ?_
    · exact h1
    · simp only [hk]
      exact goodToken_of_not_paren TokenType.keyword _ _ _
        (by decide) (by decide) (by decide)
  · exact h1

theorem runParse_good (es : Bool) (s : List Char) (line col : Int)
    (lot : List (List Token)) (hs : ∀ c ∈ s, c ≠ '/')
    (h : runParse es s line col = .ok lot) :
    ∀ t ∈ lot.flatten, goodToken t := by
  unfold runParse at h
  cases hf : foldSteps es s (initState line col) with
  | error e => rw [hf] at h; cases h
  | ok st =>
    rw [hf] at h
    have hI : C1Inv st :=
      foldSteps_inv es s (initState line col) st hs hf (C1Inv_initState line col)
    obtain ⟨h1, _, _, _, _, _⟩ := hI
    have hg2 : ∀ t ∈ allTokens (if st.state = some TokenType.keyword then
        (if es = false then appendKeywords (flushTrailing st) else flushTrailing st)
      else st), goodToken t := by
      split_ifs with hk hes
      · exact allTokensP_appendKeywords _ _ (goodTokens_flushTrailing st hk h1)
      · exact goodTokens_flushTrailing st hk h1
      · exact h1
    have key : ∀ st2 : TkState, (∀ t ∈ allTokens st2, goodToken t) →
        finishChecks st2 = .ok lot → ∀ t ∈ lot.flatten, goodToken t := by
      intro st2 hw2 h2
      unfold finishChecks at h2
      split_ifs at h2
      · cases hgl : st2.keywords.getLast? with
        | some t => rw [hgl] at h2; cases h2
        | none => rw [hgl] at h2; cases h2
      · cases h2
        intro t ht
        exact hw2 t (by simp only [allTokens, List.mem_append]; exact Or.inl ht)
    exact key _ hg2 h

/-- C1 as amended: for every input containing no `/` character that the
tokenizer accepts — in either mode — every emitted bracket token's text
starts with the corresponding opener, ends with the matching closer, and
its re-scan closes exactly at the final character (bracket occurrences
inside the token's own string literals not counting toward balance).
The `/`-free restriction is what the counterexample forces: the `//`
comment rule can leak a truncated token buffer into a later bracket
token. -/
theorem C1_bracket_invariant (s : List Char) (line col : Int) (es : Bool)
    (res : ParseResult) (hs : ∀ c ∈ s, c ≠ '/')
    (h : Tokenizer.parse s line col es = .ok res) :
    ∀ t ∈ res.tokens, goodToken t := by
  unfold Tokenizer.parse at h
  cases es with
  | true =>
    rw [if_pos rfl] at h
    cases hr : runParse true s line col with
    | error e => rw [hr] at h; cases h
    | ok lot =>
      rw [hr] at h
      cases h
      exact runParse_good true s line col lot hs hr
  | false =>
    rw [if_neg (by simp)] at h
    unfold parseExprTokens at h
    cases hr : runParse false s line col with
    | error e => rw [hr] at h; cases h
    | ok lot =>
      rw [hr] at h
      match lot, hr with
      | [], hr => cases h
      | x :: rest, hr =>
        cases h
        intro t ht
        exact runParse_good false s line col (x :: rest) hs hr t
          (by simp only [List.flatten_cons, List.mem_append]; exact Or.inl ht)

/-- C1 amended claim, applied: tokenizing `f(x);` (no `/` characters)
emits the bracket token `(x)`, which satisfies the bracket property. -/
theorem C1_witness : goodToken (mkToken TokenType.paren_round 1 2 ("(x)".data)) :=
  C1_bracket_invariant ("f(x);".data) 1 1 true
    (.program [[mkToken TokenType.keyword 1 1 ('f' :: []),
      mkToken TokenType.paren_round 1 2 ("(x)".data)]])
    (by decide) rfl (mkToken TokenType.paren_round 1 2 ("(x)".data)) (by decide)
